import Mathlib

/-
Verification of the hyperdspy trading engine core against its specification.

The Python source is shallowly embedded:
  * Python `Decimal` values become `ℚ` (exact arbitrary-precision arithmetic,
    matching Decimal's value semantics: equality and order are by value).
  * Python `dict`s become association lists with unique keys, updated in place
    (insertion order preserved, as in CPython), via `alookup` / `aset` / `aerase`.
  * Stateful methods become pure state-transformer functions.
  * The wall clock (`time.time()`), network calls and the lock are externalised:
    timestamps and venue responses are explicit arguments, and each critical
    section is a single atomic function.
-/

namespace Hyperdspy

/-- Python `dict.get`: find the value of the first entry with the given key. -/
def alookup {α β : Type} [DecidableEq α] (k : α) : List (α × β) → Option β
  | [] => none
  | (k2, v) :: rest => if k2 = k then some v else alookup k rest

/-- Python `d[k] = v`: replace the value at an existing key in place, else
append a fresh entry at the end (CPython dicts preserve insertion order). -/
def aset {α β : Type} [DecidableEq α] (k : α) (v : β) : List (α × β) → List (α × β)
  | [] => [(k, v)]
  | (k2, v2) :: rest => if k2 = k then (k2, v) :: rest else (k2, v2) :: aset k v rest

/-- Python `del d[k]` / `d.pop(k)`: drop the first entry with the given key. -/
def aerase {α β : Type} [DecidableEq α] (k : α) : List (α × β) → List (α × β)
  | [] => []
  | (k2, v2) :: rest => if k2 = k then rest else (k2, v2) :: aerase k rest

theorem alookup_aset_self {α β : Type} [DecidableEq α] (k : α) (v : β) (l : List (α × β)) :
    alookup k (aset k v l) = some v := by
  induction l with
  | nil => simp [aset, alookup]
  | cons hd tl ih =>
    rcases hd with ⟨k2, v2⟩
    by_cases h : k2 = k
    · simp [aset, alookup, h]
    · simp [aset, alookup, h, ih]

theorem alookup_aset_ne {α β : Type} [DecidableEq α] (k k2 : α) (v : β) (l : List (α × β))
    (h : k2 ≠ k) : alookup k (aset k2 v l) = alookup k l := by
  induction l with
  | nil => simp [aset, alookup, h]
  | cons hd tl ih =>
    rcases hd with ⟨k3, v3⟩
    by_cases h3 : k3 = k2
    · subst h3
      simp [aset, alookup, h]
    · simp only [aset, if_neg h3]
      by_cases h4 : k3 = k
      · simp [alookup, h4]
      · simp [alookup, h4, ih]

theorem aset_aset {α β : Type} [DecidableEq α] (k : α) (v w : β) (l : List (α × β)) :
    aset k v (aset k w l) = aset k v l := by
  induction l with
  | nil => simp [aset]
  | cons hd tl ih =>
    rcases hd with ⟨k2, v2⟩
    by_cases h : k2 = k
    · simp [aset, h]
    · simp [aset, h, ih]

theorem alookup_not_mem {α β : Type} [DecidableEq α] (k : α) (l : List (α × β))
    (h : k ∉ l.map Prod.fst) : alookup k l = none := by
  induction l with
  | nil => simp [alookup]
  | cons hd tl ih =>
    rcases hd with ⟨k2, v2⟩
    simp only [List.map_cons, List.mem_cons] at h
    push_neg at h
    have hk : k2 ≠ k := fun he => h.1 he.symm
    simp [alookup, hk, ih h.2]

theorem alookup_aerase_self {α β : Type} [DecidableEq α] (k : α) (l : List (α × β))
    (hnd : (l.map Prod.fst).Nodup) : alookup k (aerase k l) = none := by
  induction l with
  | nil => simp [aerase, alookup]
  | cons hd tl ih =>
    rcases hd with ⟨k2, v2⟩
    simp only [List.map_cons, List.nodup_cons] at hnd
    by_cases h : k2 = k
    · subst h
      simp only [aerase, if_pos rfl]
      exact alookup_not_mem _ _ hnd.1
    · simp [aerase, alookup, h, ih hnd.2]

theorem alookup_mem {α β : Type} [DecidableEq α] (k : α) (v : β) (l : List (α × β))
    (h : alookup k l = some v) : (k, v) ∈ l := by
  induction l with
  | nil => simp [alookup] at h
  | cons hd tl ih =>
    rcases hd with ⟨k2, v2⟩
    by_cases h2 : k2 = k
    · subst h2
      simp [alookup] at h
      subst h
      exact List.mem_cons_self _ _
    · simp only [alookup, if_neg h2] at h
      exact List.mem_cons_of_mem _ (ih h)

/-- Looking a key up after `aset` of another entry: the result is the new value
at the written key and the old lookup elsewhere. -/
theorem alookup_aset {α β : Type} [DecidableEq α] (k k2 : α) (v : β) (l : List (α × β)) :
    alookup k (aset k2 v l) = if k2 = k then some v else alookup k l := by
  by_cases h : k2 = k
  · subst h
    simp [alookup_aset_self]
  · simp [h, alookup_aset_ne _ _ _ _ h]

-- ## Data model (src/hyperdspy/models.py)

/-- Side enum: `Side.BID = "B"`, `Side.ASK = "A"`. -/
inductive Side where
  | bid
  | ask
deriving DecidableEq

/-- OrderStatus enum from models.py. -/
inductive OrderStatus where
  | pending
  | open_
  | partiallyFilled
  | filled
  | cancelled
  | rejected
deriving DecidableEq

/-- Internal mutable order record (models.py `Order`).  The opaque
`order_type` dict is carried as an uninterpreted string; the manager never
reads it. -/
structure Order where
  coin : String
  side : Side
  price : ℚ
  size : ℚ
  order_type : String
  reduce_only : Bool
  cloid : String
  oid : Option Nat
  status : OrderStatus
  filled_size : ℚ
  created_at_ms : Nat
  updated_at_ms : Nat
deriving DecidableEq

/-- `Order.is_terminal`: status in (FILLED, CANCELLED, REJECTED). -/
def Order.is_terminal (o : Order) : Bool :=
  match o.status with
  | OrderStatus.filled => true
  | OrderStatus.cancelled => true
  | OrderStatus.rejected => true
  | _ => false

/-- Fill event (models.py `Fill`). -/
structure Fill where
  coin : String
  side : Side
  price : ℚ
  size : ℚ
  oid : Nat
  fee : ℚ
  timestamp_ms : Nat
  closed_pnl : ℚ
  is_crossed : Bool
deriving DecidableEq

-- ## Order manager (src/hyperdspy/order_manager.py)

/-- One element of the `statuses` array of an execution-backend response
(`{resting: {oid}}`, `{filled: {oid}}`, `{error: msg}`). -/
inductive RespStatus where
  | resting (oid : Nat)
  | filled (oid : Nat)
  | err (msg : String)
deriving DecidableEq

/-- One entry of an `orderUpdates` WebSocket message: `update.get("oid")`
and `update.get("status", "")`. -/
structure OrderUpdate where
  oid : Option Nat
  status : String
deriving DecidableEq

/-- The order manager's lock-protected state: `_orders` (cloid → Order),
`_oid_to_cloid` (venue id → cloid) and `_cloid_counter`. -/
structure OMState where
  orders : List (String × Order)
  oid_to_cloid : List (Nat × String)
  cloid_counter : Nat
deriving DecidableEq

/-- `OrderManager._next_cloid` paired with the pending-order insertion that
`place_order` performs under the lock before calling the backend.  The hex
rendering of `Cloid.from_int` is modelled by an injective string encoding. -/
def OMState.insert_pending (s : OMState) (coin : String) (side : Side) (price size : ℚ)
    (order_type : String) (reduce_only : Bool) (now : Nat) : OMState × String :=
  let n := s.cloid_counter + 1
  let cloid := "0x" ++ toString n
  let o : Order :=
    ⟨coin, side, price, size, order_type, reduce_only, cloid, none,
     OrderStatus.pending, 0, now, now⟩
  (⟨aset cloid o s.orders, s.oid_to_cloid, n⟩, cloid)

/-- `OrderManager._process_order_response`: parse the first element of the
response's `statuses` array and update the order and the reverse map. -/
def OMState.process_order_response (s : OMState) (cloid : String) (statuses : List RespStatus) :
    OMState :=
  match alookup cloid s.orders with
  | none => s
  | some o =>
    match statuses with
    | [] => s
    | st :: _ =>
      match st with
      | RespStatus.resting oid =>
        ⟨aset cloid { o with oid := some oid, status := OrderStatus.open_ } s.orders,
         aset oid cloid s.oid_to_cloid, s.cloid_counter⟩
      | RespStatus.filled oid =>
        ⟨aset cloid
            { o with oid := some oid, status := OrderStatus.filled, filled_size := o.size }
            s.orders,
         aset oid cloid s.oid_to_cloid, s.cloid_counter⟩
      | RespStatus.err _ =>
        ⟨aset cloid { o with status := OrderStatus.rejected } s.orders,
         s.oid_to_cloid, s.cloid_counter⟩

/-- `OrderManager.on_fill`: if the fill's venue id maps to a tracked order,
add the fill size to `filled_size`, stamp `updated_at_ms`, and set status
FILLED when `filled_size >= size`, else PARTIALLY_FILLED. -/
def OMState.on_fill (s : OMState) (fill : Fill) : OMState :=
  match alookup fill.oid s.oid_to_cloid with
  | none => s
  | some cloid =>
    -- `if cloid and cloid in self._orders`: the empty string is falsy
    if cloid = "" then s else
    match alookup cloid s.orders with
    | none => s
    | some o =>
      let fs := o.filled_size + fill.size
      let st := if o.size ≤ fs then OrderStatus.filled else OrderStatus.partiallyFilled
      ⟨aset cloid { o with filled_size := fs, updated_at_ms := fill.timestamp_ms, status := st }
          s.orders,
       s.oid_to_cloid, s.cloid_counter⟩

/-- One iteration of the loop in `OrderManager.on_order_update`: map the
venue's status tag onto OrderStatus (unknown tags leave the status alone)
and stamp `updated_at_ms` with the current wall clock. -/
def OMState.apply_update (s : OMState) (now : Nat) (u : OrderUpdate) : OMState :=
  match u.oid with
  | none => s
  | some oid =>
    match alookup oid s.oid_to_cloid with
    | none => s
    | some cloid =>
      if cloid = "" then s else
      match alookup cloid s.orders with
      | none => s
      | some o =>
        let st :=
          if u.status = "canceled" then OrderStatus.cancelled
          else if u.status = "filled" then OrderStatus.filled
          else if u.status = "rejected" then OrderStatus.rejected
          else o.status
        ⟨aset cloid { o with status := st, updated_at_ms := now } s.orders,
         s.oid_to_cloid, s.cloid_counter⟩

/-- `OrderManager.on_order_update` over a list of updates. -/
def OMState.on_order_update (s : OMState) (now : Nat) (updates : List OrderUpdate) : OMState :=
  updates.foldl (fun acc u => acc.apply_update now u) s

/-- The per-order body of the `cancel_all` loop: a non-terminal order for the
coin is marked CANCELLED and restamped; every other order is untouched. -/
def cancelOrder (coin : String) (now : Nat) (o : Order) : Order :=
  if o.coin = coin ∧ o.is_terminal = false then
    { o with status := OrderStatus.cancelled, updated_at_ms := now }
  else o

/-- `OrderManager.cancel_all` (the state mutation after the backend call). -/
def OMState.cancel_all (s : OMState) (coin : String) (now : Nat) : OMState :=
  ⟨s.orders.map (fun p => (p.1, cancelOrder coin now p.2)), s.oid_to_cloid, s.cloid_counter⟩

theorem alookup_map_value {α β : Type} [DecidableEq α] (k : α) (f : β → β) (l : List (α × β)) :
    alookup k (l.map (fun p => (p.1, f p.2))) = (alookup k l).map f := by
  induction l with
  | nil => simp [alookup]
  | cons hd tl ih =>
    rcases hd with ⟨k2, v2⟩
    by_cases h : k2 = k
    · simp [alookup, h]
    · simp [alookup, h, ih]

-- ## Concrete order-manager states used below

/-- A tracked open order of size 1 with venue id 100, as produced by a
resting placement acknowledgement. -/
def exOrder : Order :=
  ⟨"BTC", Side.bid, 67500, 1, "limit-gtc", false, "0x1", some 100,
   OrderStatus.open_, 0, 1000, 1000⟩

/-- Manager state tracking `exOrder` under cloid "0x1" and venue id 100. -/
def exState : OMState := ⟨[("0x1", exOrder)], [(100, "0x1")], 1⟩

/-- A fill of size 3/5 for venue id 100. -/
def exFill : Fill := ⟨"BTC", Side.bid, 67500, 3/5, 100, 0, 2000, 0, true⟩

/-- A fill for venue id 999, unknown to `exState`. -/
def strayFill : Fill := ⟨"BTC", Side.bid, 67500, 3/5, 999, 0, 2000, 0, true⟩

-- ## C3: cancel_all

/-- Claim C3: after `cancel_all(s)` every tracked order for symbol `s` is
terminal, each previously non-terminal order for `s` is set to CANCELLED
(with its timestamp restamped), and orders for other symbols are unchanged. -/
theorem cancel_all_correct (s : OMState) (coin : String) (now : Nat) :
    (∀ cl o, alookup cl s.orders = some o →
      (o.coin = coin → o.is_terminal = false →
        alookup cl (s.cancel_all coin now).orders =
          some { o with status := OrderStatus.cancelled, updated_at_ms := now }) ∧
      (o.coin ≠ coin → alookup cl (s.cancel_all coin now).orders = some o)) ∧
    (∀ cl o, alookup cl (s.cancel_all coin now).orders = some o →
      o.coin = coin → o.is_terminal = true) := by
  have hm : ∀ cl, alookup cl (s.cancel_all coin now).orders =
      (alookup cl s.orders).map (cancelOrder coin now) := by
    intro cl
    simp only [OMState.cancel_all]
    exact alookup_map_value cl (cancelOrder coin now) s.orders
  constructor
  · intro cl o h
    constructor
    · intro hcoin hterm
      rw [hm, h]
      simp [cancelOrder, hcoin, hterm]
    · intro hne
      rw [hm, h]
      have : cancelOrder coin now o = o := by
        simp only [cancelOrder]
        rw [if_neg]
        intro hc
        exact hne hc.1
      simp [this]
  · intro cl o h hcoin
    rw [hm] at h
    rcases Option.map_eq_some'.mp h with ⟨o0, h0, hfo⟩
    by_cases hc : o0.coin = coin ∧ o0.is_terminal = false
    · have : o = { o0 with status := OrderStatus.cancelled, updated_at_ms := now } := by
        rw [← hfo]
        simp [cancelOrder, hc.1, hc.2]
      rw [this]
      simp [Order.is_terminal]
    · have ho : o = o0 := by
        rw [← hfo]
        simp [cancelOrder, hc]
      subst ho
      rcases not_and_or.mp hc with h1 | h2
      · exact absurd hcoin h1
      · exact Bool.not_eq_false _ |>.mp h2 ▸ by
          cases hb : o.is_terminal
          · exact absurd hb h2
          · rfl

/-- Witness for C3: cancelling BTC in `exState` leaves its open BTC order
CANCELLED, hence terminal. -/
theorem cancel_all_correct_witness :
    alookup "0x1" ((exState.cancel_all "BTC" 2000).orders) =
      some { exOrder with status := OrderStatus.cancelled, updated_at_ms := 2000 } :=
  ((cancel_all_correct exState "BTC" 2000).1 "0x1" exOrder rfl).1 rfl rfl

-- ## C8: on_fill drops fills whose venue id is unknown

/-- Claim C8: a fill whose venue id is not in the reverse map leaves the
order manager's state completely unchanged. -/
theorem on_fill_unknown_oid_dropped (s : OMState) (fill : Fill)
    (h : alookup fill.oid s.oid_to_cloid = none) : s.on_fill fill = s := by
  simp [OMState.on_fill, h]

/-- Witness for C8: a fill for venue id 999, unknown to `exState`, is a
no-op. -/
theorem on_fill_unknown_oid_dropped_witness : exState.on_fill strayFill = exState :=
  on_fill_unknown_oid_dropped exState strayFill rfl

-- ## C1: status transitions / terminal absorption

/-- States of the C1 counterexample run, built only from the manager's own
operations: place (insert pending), resting acknowledgement, cancel_all,
then an orderUpdates message reporting "filled" for the same venue id. -/
def c1Placed : OMState :=
  (OMState.insert_pending ⟨[], [], 0⟩ "BTC" Side.bid 67500 (1/10) "limit-gtc" false 1000).1

def c1Acked : OMState := c1Placed.process_order_response "0x1" [RespStatus.resting 100]

def c1Cancelled : OMState := c1Acked.cancel_all "BTC" 2000

def c1Updated : OMState := c1Cancelled.on_order_update 3000 [⟨some 100, "filled"⟩]

/-- Counterexample to claim C1: a tracked order reaches the terminal status
CANCELLED (via cancel_all) and a subsequent `on_order_update` carrying the
venue tag "filled" for its venue id changes its status again, to FILLED —
`on_order_update` never checks `is_terminal`, and Cancelled → Filled is not
an edge of the transition graph of §3. -/
theorem terminal_status_changes_again :
    (alookup "0x1" c1Cancelled.orders).map Order.status = some OrderStatus.cancelled ∧
    (alookup "0x1" c1Cancelled.orders).map Order.is_terminal = some true ∧
    (alookup "0x1" c1Updated.orders).map Order.status = some OrderStatus.filled ∧
    OrderStatus.cancelled ≠ OrderStatus.filled := by
  refine ⟨rfl, rfl, rfl, by decide⟩

/-- Claim C1 as amended: `cancel_all` respects terminality — a terminal
tracked order is left exactly as it was, and any status change it performs
turns a non-terminal order into CANCELLED; but `on_fill`, `on_order_update`
and response processing overwrite a tracked order's status without checking
`is_terminal`, so a terminal status can change again
(`terminal_status_changes_again`). -/
theorem cancel_all_terminal_absorbing (s : OMState) (coin : String) (now : Nat)
    (cl : String) (o : Order) (h : alookup cl s.orders = some o) :
    (o.is_terminal = true → alookup cl (s.cancel_all coin now).orders = some o) ∧
    (∀ o2, alookup cl (s.cancel_all coin now).orders = some o2 → o2.status ≠ o.status →
      o.is_terminal = false ∧ o2.status = OrderStatus.cancelled) := by
  have hm : alookup cl (s.cancel_all coin now).orders =
      (alookup cl s.orders).map (cancelOrder coin now) := by
    simp only [OMState.cancel_all]
    exact alookup_map_value cl (cancelOrder coin now) s.orders
  constructor
  · intro hterm
    rw [hm, h]
    have : cancelOrder coin now o = o := by
      simp [cancelOrder, hterm]
    simp [this]
  · intro o2 h2 hne
    rw [hm, h] at h2
    simp only [Option.map_some', Option.some.injEq] at h2
    by_cases hc : o.coin = coin ∧ o.is_terminal = false
    · have : o2.status = OrderStatus.cancelled := by
        rw [← h2]
        simp [cancelOrder, hc.1, hc.2]
      exact ⟨hc.2, this⟩
    · exfalso
      apply hne
      rw [← h2]
      simp [cancelOrder, hc]

/-- Witness for the amended C1: in `exState` with its BTC order already
CANCELLED, `cancel_all` leaves the order untouched. -/
theorem cancel_all_terminal_absorbing_witness :
    alookup "0x1"
        ((OMState.cancel_all
            ⟨[("0x1", { exOrder with status := OrderStatus.cancelled })], [(100, "0x1")], 1⟩
            "BTC" 2500).orders) =
      some { exOrder with status := OrderStatus.cancelled } :=
  (cancel_all_terminal_absorbing
      ⟨[("0x1", { exOrder with status := OrderStatus.cancelled })], [(100, "0x1")], 1⟩
      "BTC" 2500 "0x1" { exOrder with status := OrderStatus.cancelled } rfl).1 rfl

-- ## C2: 0 ≤ filled_size ≤ size

/-- Applying the size-3/5 fill twice to the size-1 order: `on_fill` adds
fill sizes without capping. -/
def c2Twice : OMState := (exState.on_fill exFill).on_fill exFill

/-- Counterexample to claim C2: after two fills of size 3/5 on an order of
size 1 the tracked `filled_size` is 6/5, which exceeds `size` — `on_fill`
does not cap `filled_size` at `size`, so `filled_size ≤ size` is not
preserved by every sequence of fills. -/
theorem on_fill_overfills :
    (alookup "0x1" c2Twice.orders).map Order.filled_size = some (6/5 : ℚ) ∧
    (alookup "0x1" c2Twice.orders).map Order.size = some (1 : ℚ) ∧
    ¬ ((6 : ℚ)/5 ≤ 1) := by
  refine ⟨by norm_num [c2Twice, exState, exOrder, exFill, OMState.on_fill, alookup, aset], ?_, by norm_num⟩
  norm_num [c2Twice, exState, exOrder, exFill, OMState.on_fill, alookup, aset]

/-- Claim C2 as amended: `on_fill` adds the fill's size to `filled_size`,
stamps the fill time, and sets status FILLED when `filled_size ≥ size`, else
PARTIALLY_FILLED, without capping `filled_size`; consequently
`0 ≤ filled_size` is preserved by `on_fill` for nonnegative fill sizes, but
`filled_size ≤ size` can be violated once the fills' total exceeds the order
size (`on_fill_overfills`). -/
theorem on_fill_increments_without_cap (s : OMState) (fill : Fill) :
    (∀ cloid o, alookup fill.oid s.oid_to_cloid = some cloid → cloid ≠ "" →
      alookup cloid s.orders = some o →
      alookup cloid (s.on_fill fill).orders =
        some { o with
                filled_size := o.filled_size + fill.size,
                updated_at_ms := fill.timestamp_ms,
                status := if o.size ≤ o.filled_size + fill.size then OrderStatus.filled
                          else OrderStatus.partiallyFilled }) ∧
    (0 ≤ fill.size → (∀ cl o, alookup cl s.orders = some o → 0 ≤ o.filled_size) →
      ∀ cl o, alookup cl (s.on_fill fill).orders = some o → 0 ≤ o.filled_size) := by
  constructor
  · intro cloid o hoid hne ho
    simp only [OMState.on_fill, hoid, ho, if_neg hne]
    exact alookup_aset_self _ _ _
  · intro hf hs cl o h
    rcases hoid : alookup fill.oid s.oid_to_cloid with _ | cloid
    · rw [OMState.on_fill, hoid] at h
      exact hs cl o h
    · by_cases hne : cloid = ""
      · rw [OMState.on_fill, hoid] at h
        simp only [if_pos hne] at h
        exact hs cl o h
      · rcases ho : alookup cloid s.orders with _ | o0
        · rw [OMState.on_fill, hoid] at h
          simp only [if_neg hne] at h
          rw [ho] at h
          exact hs cl o h
        · rw [OMState.on_fill, hoid] at h
          simp only [if_neg hne] at h
          rw [ho] at h
          simp only at h
          rw [alookup_aset] at h
          by_cases hcl : cloid = cl
          · rw [if_pos hcl] at h
            cases h
            have h0 : (0 : ℚ) ≤ o0.filled_size := hs cloid o0 ho
            simpa using add_nonneg h0 hf
          · rw [if_neg hcl] at h
            exact hs cl o h

/-- Witness for the amended C2: applying a nonnegative fill to `exState`
keeps the tracked filled size nonnegative. -/
theorem on_fill_increments_without_cap_witness :
    ∀ cl o, alookup cl ((exState.on_fill exFill).orders) = some o → 0 ≤ o.filled_size := by
  refine (on_fill_increments_without_cap exState exFill).2 (by norm_num [exFill]) ?_
  intro cl o h
  by_cases hc : "0x1" = cl
  · rw [exState] at h
    simp only [alookup, if_pos hc] at h
    cases h
    norm_num [exOrder]
  · rw [exState] at h
    simp only [alookup, if_neg hc] at h
    cases h

-- ## L4 book maintainer (src/hyperdspy/l4_client.py)

/-- An individual resting order of the L4 book (models.py `L4Order`). -/
structure L4Order where
  oid : Nat
  user : String
  price : ℚ
  size : ℚ
  side : Side
deriving DecidableEq

/-- One L4 diff entry `{oid, user, limitPx, sz}`; `sz = 0` denotes removal. -/
structure L4Diff where
  oid : Nat
  user : String
  limitPx : ℚ
  sz : ℚ
deriving DecidableEq

/-- `L4Order.from_raw` applied to a diff entry. -/
def L4Order.from_raw (d : L4Diff) (side : Side) : L4Order :=
  ⟨d.oid, d.user, d.limitPx, d.sz, side⟩

/-- One side of the mutable raw book: `{price: [orders]}`. -/
abbrev SideBook := List (ℚ × List L4Order)

/-- The list-comprehension predicate `o.oid != oid`. -/
def oidNe (n : Nat) (o : L4Order) : Bool := o.oid != n

/-- `L4Client._apply_side_diff`: remove the order id at the price when the
diff size is zero (deleting the price entry if its list empties), else
replace-or-insert the order at that price. -/
def applySideDiff (book : SideBook) (d : L4Diff) (side : Side) : SideBook :=
  if d.sz = 0 then
    match alookup d.limitPx book with
    | none => book
    | some l =>
      if l.filter (oidNe d.oid) = [] then aerase d.limitPx book
      else aset d.limitPx (l.filter (oidNe d.oid)) book
  else
    match alookup d.limitPx book with
    | some l => aset d.limitPx (l.filter (oidNe d.oid) ++ [L4Order.from_raw d side]) book
    | none => aset d.limitPx [L4Order.from_raw d side] book

/-- Published immutable snapshot (models.py `L4BookSnapshot`). -/
structure L4BookSnapshot where
  coin : String
  bids : SideBook
  asks : SideBook
  timestamp_ms : Nat
deriving DecidableEq

/-- An `l4Book` diff message: `bidDiffs`, `askDiffs` and `time`. -/
structure L4DiffMsg where
  bidDiffs : List L4Diff
  askDiffs : List L4Diff
  time : Nat
deriving DecidableEq

/-- The per-coin mutable `_raw_books` entry: `{"bids": ..., "asks": ...}`. -/
structure RawBook where
  bids : SideBook
  asks : SideBook
deriving DecidableEq

/-- The loop over one side's diff entries in `L4Client._apply_diff`. -/
def applyDiffs (book : SideBook) (diffs : List L4Diff) (side : Side) : SideBook :=
  diffs.foldl (fun b d => applySideDiff b d side) book

/-- `L4Client._apply_diff`: fold both sides' diff entries into the raw book,
then rebuild the published snapshot keeping only non-empty price levels
(`{px: tuple(orders) for px, orders in ... if orders}`). -/
def applyDiff (coin : String) (raw : RawBook) (msg : L4DiffMsg) : RawBook × L4BookSnapshot :=
  (⟨applyDiffs raw.bids msg.bidDiffs Side.bid, applyDiffs raw.asks msg.askDiffs Side.ask⟩,
   ⟨coin,
    (applyDiffs raw.bids msg.bidDiffs Side.bid).filter (fun p => !p.2.isEmpty),
    (applyDiffs raw.asks msg.askDiffs Side.ask).filter (fun p => !p.2.isEmpty),
    msg.time⟩)

theorem filter_self_filter {α : Type} (p : α → Bool) (l : List α) :
    (l.filter p).filter p = l.filter p := by
  induction l with
  | nil => simp
  | cons hd tl ih =>
    by_cases h : p hd
    · simp [List.filter_cons, h, ih]
    · simp [List.filter_cons, h, ih]

-- ## C4: effect of a single diff entry on its (oid, px) slot

/-- Claim C4: applying a `sz = 0` diff entry leaves no order with the diff's
oid at the diff's price and never leaves an empty list at that price
(the price entry is deleted when its list empties); applying a non-zero diff
entry leaves exactly one order with that oid at that price. -/
theorem apply_side_diff_oid_semantics (book : SideBook) (d : L4Diff) (side : Side)
    (hnd : (book.map Prod.fst).Nodup) :
    (d.sz = 0 →
      ∀ l, alookup d.limitPx (applySideDiff book d side) = some l →
        l ≠ [] ∧ ∀ o ∈ l, o.oid ≠ d.oid) ∧
    (d.sz ≠ 0 →
      ∃ l, alookup d.limitPx (applySideDiff book d side) = some l ∧
        l.countP (fun o => o.oid == d.oid) = 1) := by
  constructor
  · intro hz l hl
    rcases hlk : alookup d.limitPx book with _ | l0
    · rw [show applySideDiff book d side = book from by
          simp only [applySideDiff, if_pos hz, hlk]] at hl
      rw [hlk] at hl
      cases hl
    · by_cases h2 : l0.filter (oidNe d.oid) = []
      · rw [show applySideDiff book d side = aerase d.limitPx book from by
            simp only [applySideDiff, if_pos hz, hlk, if_pos h2]] at hl
        rw [alookup_aerase_self _ _ hnd] at hl
        cases hl
      · rw [show applySideDiff book d side =
              aset d.limitPx (l0.filter (oidNe d.oid)) book from by
            simp only [applySideDiff, if_pos hz, hlk, if_neg h2]] at hl
        rw [alookup_aset_self] at hl
        cases hl
        refine ⟨h2, ?_⟩
        intro o ho
        have hmem := List.mem_filter.mp ho
        simpa [oidNe] using hmem.2
  · intro hz
    simp only [applySideDiff, if_neg hz]
    rcases hlk : alookup d.limitPx book with _ | l0
    · refine ⟨[L4Order.from_raw d side], alookup_aset_self _ _ _, ?_⟩
      simp [List.countP_cons, L4Order.from_raw]
    · refine ⟨l0.filter (oidNe d.oid) ++ [L4Order.from_raw d side], alookup_aset_self _ _ _, ?_⟩
      rw [List.countP_append]
      have hz0 : (l0.filter (oidNe d.oid)).countP (fun o => o.oid == d.oid) = 0 := by
        rw [List.countP_eq_zero]
        intro o ho
        have hmem := List.mem_filter.mp ho
        simpa [oidNe] using hmem.2
      rw [hz0]
      simp [List.countP_cons, L4Order.from_raw]

/-- A one-level bid book holding order 1 at price 67500. -/
def l4Book0 : SideBook := [(67500, [⟨1, "0xa", 67500, 2, Side.bid⟩])]

/-- A diff entry inserting order 2 at price 67500 with size 3. -/
def l4DiffAdd : L4Diff := ⟨2, "0xb", 67500, 3⟩

/-- A diff entry removing order 1 at price 67500 (`sz = 0`). -/
def l4DiffDel : L4Diff := ⟨1, "", 67500, 0⟩

/-- Witness for C4: inserting order 2 at 67500 leaves exactly one order with
oid 2 at that price. -/
theorem apply_side_diff_oid_semantics_witness :
    ∃ l, alookup l4DiffAdd.limitPx (applySideDiff l4Book0 l4DiffAdd Side.bid) = some l ∧
      l.countP (fun o => o.oid == l4DiffAdd.oid) = 1 :=
  (apply_side_diff_oid_semantics l4Book0 l4DiffAdd Side.bid (by simp [l4Book0])).2
    (by norm_num [l4DiffAdd])

-- ## C7: idempotence of a diff entry

/-- Claim C7: applying the same diff entry twice to one side of the book
yields the same side-book state as applying it once — removals are already
gone and a replace-or-insert replaces the order it inserted. -/
theorem apply_side_diff_idempotent (book : SideBook) (d : L4Diff) (side : Side)
    (hnd : (book.map Prod.fst).Nodup) :
    applySideDiff (applySideDiff book d side) d side = applySideDiff book d side := by
  by_cases hz : d.sz = 0
  · rcases hlk : alookup d.limitPx book with _ | l0
    · have h1 : applySideDiff book d side = book := by
        simp only [applySideDiff, if_pos hz, hlk]
      rw [h1]
      exact h1
    · by_cases h2 : l0.filter (oidNe d.oid) = []
      · have h1 : applySideDiff book d side = aerase d.limitPx book := by
          simp only [applySideDiff, if_pos hz, hlk, if_pos h2]
        rw [h1]
        have h3 : alookup d.limitPx (aerase d.limitPx book) = none :=
          alookup_aerase_self _ _ hnd
        simp only [applySideDiff, if_pos hz, h3]
      · have h1 : applySideDiff book d side =
            aset d.limitPx (l0.filter (oidNe d.oid)) book := by
          simp only [applySideDiff, if_pos hz, hlk, if_neg h2]
        rw [h1]
        have h3 := alookup_aset_self d.limitPx (l0.filter (oidNe d.oid)) book
        have hff := filter_self_filter (oidNe d.oid) l0
        simp only [applySideDiff, if_pos hz, h3, hff, if_neg h2, aset_aset]
  · rcases hlk : alookup d.limitPx book with _ | l0
    · have h1 : applySideDiff book d side = aset d.limitPx [L4Order.from_raw d side] book := by
        simp only [applySideDiff, if_neg hz, hlk]
      rw [h1]
      have h3 := alookup_aset_self d.limitPx [L4Order.from_raw d side] book
      have h4 : ([L4Order.from_raw d side]).filter (oidNe d.oid) = [] := by
        simp [oidNe, L4Order.from_raw]
      simp only [applySideDiff, if_neg hz, h3, h4, List.nil_append, aset_aset]
    · have h1 : applySideDiff book d side =
          aset d.limitPx (l0.filter (oidNe d.oid) ++ [L4Order.from_raw d side]) book := by
        simp only [applySideDiff, if_neg hz, hlk]
      rw [h1]
      have h3 := alookup_aset_self d.limitPx
        (l0.filter (oidNe d.oid) ++ [L4Order.from_raw d side]) book
      have h4 : (l0.filter (oidNe d.oid) ++ [L4Order.from_raw d side]).filter (oidNe d.oid) =
          l0.filter (oidNe d.oid) := by
        rw [List.filter_append, filter_self_filter]
        have : ([L4Order.from_raw d side]).filter (oidNe d.oid) = [] := by
          simp [oidNe, L4Order.from_raw]
        rw [this, List.append_nil]
      simp only [applySideDiff, if_neg hz, h3, h4, aset_aset]

/-- Witness for C7: the removal diff for order 1 at 67500 is idempotent on
the one-level book. -/
theorem apply_side_diff_idempotent_witness :
    applySideDiff (applySideDiff l4Book0 l4DiffDel Side.bid) l4DiffDel Side.bid =
      applySideDiff l4Book0 l4DiffDel Side.bid :=
  apply_side_diff_idempotent l4Book0 l4DiffDel Side.bid (by simp [l4Book0])

-- ## C10: published snapshots carry no empty price level

/-- Claim C10: every price level of the snapshot published after applying a
diff message holds a non-empty order list — `_apply_diff` rebuilds the
snapshot keeping only levels whose order list is non-empty. -/
theorem published_no_empty_levels (coin : String) (raw : RawBook) (msg : L4DiffMsg) :
    (∀ p ∈ (applyDiff coin raw msg).2.bids, p.2 ≠ []) ∧
    (∀ p ∈ (applyDiff coin raw msg).2.asks, p.2 ≠ []) := by
  constructor <;>
  · intro p hp
    simp only [applyDiff, List.mem_filter] at hp
    intro hnil
    rw [hnil] at hp
    simp at hp

/-- Raw book with two bid levels, and a diff message emptying the 67500
level. -/
def rawBook0 : RawBook :=
  ⟨[(67500, [⟨1, "0xa", 67500, 2, Side.bid⟩]), (67400, [⟨2, "0xb", 67400, 1, Side.bid⟩])], []⟩

def msgDel0 : L4DiffMsg := ⟨[l4DiffDel], [], 5000⟩

/-- Witness for C10: the surviving level of the published snapshot is
non-empty. -/
theorem published_no_empty_levels_witness :
    ([(⟨2, "0xb", 67400, 1, Side.bid⟩ : L4Order)]) ≠ ([] : List L4Order) :=
  (published_no_empty_levels "BTC" rawBook0 msgDel0).1
    ((67400 : ℚ), [(⟨2, "0xb", 67400, 1, Side.bid⟩ : L4Order)]) (by decide)

-- ## Paper execution backend (src/hyperdspy/paper.py)

/-- One raw L2 level `{"px": str, "sz": str, "n": int}`.  The decimal
strings are modelled by their exact values (Python `Decimal` preserves the
value of the string it parses). -/
structure RawLevel where
  px : ℚ
  sz : ℚ
  n : Nat
deriving DecidableEq

/-- A raw venue L2 payload `{"coin", "levels": [[bids], [asks]], "time"}`;
`levels[0]` are the bids, `levels[1]` the asks. -/
structure L2Raw where
  coin : String
  bids : List RawLevel
  asks : List RawLevel
  time : Nat
deriving DecidableEq

/-- A resting simulated order of the paper backend's `_open_orders` map. -/
structure PaperOrder where
  coin : String
  is_buy : Bool
  sz : ℚ
  limit_px : ℚ
  oid : Nat
  time : Nat
deriving DecidableEq

/-- A recorded simulated fill (the dict built by `_simulate_fill`; the
constant `"closedPnl": "0"`, `"crossed": True`, `"fee": "0"` fields are
kept). -/
structure PaperFill where
  coin : String
  oid : Nat
  side : Side
  px : ℚ
  sz : ℚ
  time : Nat
  closed_pnl : ℚ
  crossed : Bool
  fee : ℚ
deriving DecidableEq

/-- A simulated position (the dict built by `_update_position`; the constant
leverage/liquidation fields are dropped, `unrealizedPnl` is the constant 0). -/
structure PaperPos where
  coin : String
  szi : ℚ
  entryPx : ℚ
  positionValue : ℚ
  unrealizedPnl : ℚ
  marginUsed : ℚ
deriving DecidableEq

/-- The paper backend's lock-protected state. -/
structure PaperState where
  next_oid : Nat
  open_orders : List (Nat × PaperOrder)
  fills : List PaperFill
  positions : List (String × PaperPos)
  balance_usd : ℚ
deriving DecidableEq

/-- `PaperExecution._update_position`: create a position on first fill;
otherwise accumulate (size-weighted entry) when the trade direction matches
the position's sign, keep the entry on a partial reduce, and on a
fully-closing fill realize `(px - entry) * |delta| * (1 if old_szi > 0 else
-1)` into the cash balance and delete the entry. -/
def updatePosition (st : PaperState) (coin : String) (is_buy : Bool) (sz px : ℚ) : PaperState :=
  match alookup coin st.positions with
  | none =>
    let szi := if is_buy then sz else -sz
    { st with positions := aset coin ⟨coin, szi, px, |szi| * px, 0, |szi| * px / 20⟩ st.positions }
  | some pos =>
    let delta := if is_buy then sz else -sz
    if pos.szi + delta = 0 then
      let closed_pnl := (px - pos.entryPx) * |delta| * (if 0 < pos.szi then 1 else -1)
      { st with
        balance_usd := st.balance_usd + closed_pnl,
        positions := aerase coin st.positions }
    else
      let entry2 :=
        if (0 < pos.szi ∧ 0 < delta) ∨ (pos.szi < 0 ∧ delta < 0) then
          (pos.entryPx * |pos.szi| + px * |delta|) / |pos.szi + delta|
        else pos.entryPx
      { st with
        positions := aset coin
          ⟨coin, pos.szi + delta, entry2, |pos.szi + delta| * px, 0, |pos.szi + delta| * px / 20⟩
          st.positions }

theorem updatePosition_fills (st : PaperState) (coin : String) (is_buy : Bool) (sz px : ℚ) :
    (updatePosition st coin is_buy sz px).fills = st.fills := by
  rcases h : alookup coin st.positions with _ | pos
  · simp [updatePosition, h]
  · simp only [updatePosition, h]
    split <;> split <;> rfl

/-- `PaperExecution._simulate_fill`: append the fill record, then update the
position. -/
def simulateFill (st : PaperState) (coin : String) (is_buy : Bool) (sz : ℚ) (oid : Nat)
    (fill_px : ℚ) (now : Nat) : PaperState × PaperFill :=
  let f : PaperFill :=
    ⟨coin, oid, (if is_buy then Side.bid else Side.ask), fill_px, sz, now, 0, true, 0⟩
  (updatePosition { st with fills := st.fills ++ [f] } coin is_buy sz fill_px, f)

/-- `PaperExecution._try_immediate_fill` with the freshly fetched L2
snapshot passed explicitly: a buy fills at the best ask when it is at or
below the limit, a sell fills at the best bid when it is at or above the
limit, and anything else answers the IOC rejection status. -/
def tryImmediateFill (st : PaperState) (snap : L2Raw) (coin : String) (is_buy : Bool)
    (sz limit_px : ℚ) (oid : Nat) (now : Nat) : PaperState × RespStatus :=
  if is_buy then
    match snap.asks with
    | a :: _ =>
      if a.px ≤ limit_px then
        ((simulateFill st coin is_buy sz oid a.px now).1, RespStatus.filled oid)
      else (st, RespStatus.err "IOC would not fill")
    | [] => (st, RespStatus.err "IOC would not fill")
  else
    match snap.bids with
    | b :: _ =>
      if limit_px ≤ b.px then
        ((simulateFill st coin is_buy sz oid b.px now).1, RespStatus.filled oid)
      else (st, RespStatus.err "IOC would not fill")
    | [] => (st, RespStatus.err "IOC would not fill")

/-- `PaperExecution.place_order`: allocate the next venue id; an `Ioc`
time-in-force attempts an immediate fill, every other time-in-force rests
the order in the open-order map. -/
def placeOrder (st : PaperState) (snap : L2Raw) (coin : String) (is_buy : Bool)
    (sz limit_px : ℚ) (tif : String) (now : Nat) : PaperState × RespStatus :=
  if tif = "Ioc" then
    tryImmediateFill { st with next_oid := st.next_oid + 1 } snap coin is_buy sz limit_px
      st.next_oid now
  else
    ({ st with
        next_oid := st.next_oid + 1,
        open_orders := aset st.next_oid ⟨coin, is_buy, sz, limit_px, st.next_oid, now⟩
          st.open_orders },
     RespStatus.resting st.next_oid)

-- ## C6: realized PnL of a fully-closing fill

/-- The sign function on rationals, as used by the claim
(`sign(old_szi)`). -/
def rsign (q : ℚ) : ℚ := if 0 < q then 1 else if q < 0 then -1 else 0

/-- Claim C6: a fill that brings the signed position size exactly to zero
adds `(fill_px - entry) * |delta| * sign(old_szi)` to the cash balance and
deletes the position entry; a fill that reduces the position without closing
or growing it leaves the entry price unchanged.  (The code multiplies by
`1 if old_szi > 0 else -1`; when `old_szi = 0` the delta is also zero, so
the realized PnL is zero either way and the sign convention agrees.) -/
theorem fully_closing_fill_realizes_pnl (st : PaperState) (coin : String) (is_buy : Bool)
    (sz px : ℚ) (pos : PaperPos)
    (hnd : (st.positions.map Prod.fst).Nodup)
    (hpos : alookup coin st.positions = some pos) :
    (pos.szi + (if is_buy then sz else -sz) = 0 →
      (updatePosition st coin is_buy sz px).balance_usd =
        st.balance_usd + (px - pos.entryPx) * |(if is_buy then sz else -sz)| * rsign pos.szi ∧
      alookup coin (updatePosition st coin is_buy sz px).positions = none) ∧
    (pos.szi + (if is_buy then sz else -sz) ≠ 0 →
      ¬ ((0 < pos.szi ∧ 0 < (if is_buy then sz else -sz)) ∨
         (pos.szi < 0 ∧ (if is_buy then sz else -sz) < 0)) →
      ∃ pos2, alookup coin (updatePosition st coin is_buy sz px).positions = some pos2 ∧
        pos2.entryPx = pos.entryPx ∧ pos2.szi = pos.szi + (if is_buy then sz else -sz)) := by
  constructor
  · intro hz
    constructor
    · simp only [updatePosition, hpos, if_pos hz]
      rcases lt_trichotomy pos.szi 0 with h | h | h
      · have h1 : ¬ 0 < pos.szi := not_lt.mpr h.le
        simp [rsign, h, h1]
      · have hd : (if is_buy then sz else -sz) = 0 := by
          rw [h, zero_add] at hz
          exact hz
        simp [rsign, h, hd]
      · simp [rsign, h]
    · simp only [updatePosition, hpos, if_pos hz]
      exact alookup_aerase_self _ _ hnd
  · intro hz hdir
    simp only [updatePosition, hpos, if_neg hz]
    exact ⟨_, alookup_aset_self _ _ _, if_neg hdir, rfl⟩

/-- A long 1-unit BTC position entered at 67000. -/
def paperPos0 : PaperPos := ⟨"BTC", 1, 67000, 67000, 0, 3350⟩

/-- Paper state holding `paperPos0` and a 10000 cash balance. -/
def paperSt0 : PaperState := ⟨5, [], [], [("BTC", paperPos0)], 10000⟩

/-- Witness for C6: selling 1 BTC at 68000 against `paperSt0` realizes
+1000 into the balance and removes the position. -/
theorem fully_closing_fill_realizes_pnl_witness :
    (updatePosition paperSt0 "BTC" false 1 68000).balance_usd =
      paperSt0.balance_usd + ((68000 : ℚ) - paperPos0.entryPx) *
        |(if false then (1 : ℚ) else -1)| * rsign paperPos0.szi ∧
    alookup "BTC" (updatePosition paperSt0 "BTC" false 1 68000).positions = none :=
  (fully_closing_fill_realizes_pnl paperSt0 "BTC" false 1 68000 paperPos0
      (by simp [paperSt0]) rfl).1 (by norm_num [paperPos0])

-- ## C5: IOC placement in the paper backend

/-- The crossing condition of C5: the best level on the opposite side of the
fetched snapshot crosses the limit price (best ask at or below the limit for
a buy; best bid at or above the limit for a sell). -/
def iocCrosses (snap : L2Raw) (is_buy : Bool) (limit_px : ℚ) : Prop :=
  (is_buy = true ∧ ∃ a rest, snap.asks = a :: rest ∧ a.px ≤ limit_px) ∨
  (is_buy = false ∧ ∃ b rest, snap.bids = b :: rest ∧ limit_px ≤ b.px)

/-- Claim C5: an `Ioc` placement returns `{filled: {oid}}` exactly when the
best opposite level of the snapshot crosses the limit price, in which case
the state is the simulate-fill at that best price (a fill at the best price
is appended and the position updated); otherwise it returns
`{error: "IOC would not fill"}` having only consumed the venue id; any other
time-in-force rests the order in the open-order map and returns
`{resting: {oid}}`. -/
theorem ioc_place_order_semantics (st : PaperState) (snap : L2Raw) (coin : String)
    (is_buy : Bool) (sz limit_px : ℚ) (now : Nat) :
    ((placeOrder st snap coin is_buy sz limit_px "Ioc" now).2 =
        RespStatus.filled st.next_oid ↔ iocCrosses snap is_buy limit_px) ∧
    (∀ a rest, is_buy = true → snap.asks = a :: rest → a.px ≤ limit_px →
      placeOrder st snap coin is_buy sz limit_px "Ioc" now =
        ((simulateFill { st with next_oid := st.next_oid + 1 } coin is_buy sz st.next_oid
            a.px now).1,
         RespStatus.filled st.next_oid) ∧
      (placeOrder st snap coin is_buy sz limit_px "Ioc" now).1.fills =
        st.fills ++ [⟨coin, st.next_oid, Side.bid, a.px, sz, now, 0, true, 0⟩]) ∧
    (∀ b rest, is_buy = false → snap.bids = b :: rest → limit_px ≤ b.px →
      placeOrder st snap coin is_buy sz limit_px "Ioc" now =
        ((simulateFill { st with next_oid := st.next_oid + 1 } coin is_buy sz st.next_oid
            b.px now).1,
         RespStatus.filled st.next_oid) ∧
      (placeOrder st snap coin is_buy sz limit_px "Ioc" now).1.fills =
        st.fills ++ [⟨coin, st.next_oid, Side.ask, b.px, sz, now, 0, true, 0⟩]) ∧
    (¬ iocCrosses snap is_buy limit_px →
      placeOrder st snap coin is_buy sz limit_px "Ioc" now =
        ({ st with next_oid := st.next_oid + 1 }, RespStatus.err "IOC would not fill")) ∧
    (∀ tif, tif ≠ "Ioc" →
      (placeOrder st snap coin is_buy sz limit_px tif now).2 = RespStatus.resting st.next_oid ∧
      alookup st.next_oid
          (placeOrder st snap coin is_buy sz limit_px tif now).1.open_orders =
        some ⟨coin, is_buy, sz, limit_px, st.next_oid, now⟩) := by
  have hplace : placeOrder st snap coin is_buy sz limit_px "Ioc" now =
      tryImmediateFill { st with next_oid := st.next_oid + 1 } snap coin is_buy sz limit_px
        st.next_oid now := by
    simp [placeOrder]
  refine ⟨?_, ?_, ?_, ?_, ?_⟩
  · rw [hplace]
    cases hb : is_buy with
    | true =>
      rcases hsb : snap.asks with _ | ⟨a, rest⟩
      · simp [tryImmediateFill, hsb, iocCrosses]
      · by_cases hc : a.px ≤ limit_px
        · simp [tryImmediateFill, hsb, hc, iocCrosses]
        · simp [tryImmediateFill, hsb, hc, iocCrosses]
    | false =>
      rcases hsb : snap.bids with _ | ⟨b, rest⟩
      · simp [tryImmediateFill, hsb, iocCrosses]
      · by_cases hc : limit_px ≤ b.px
        · simp [tryImmediateFill, hsb, hc, iocCrosses]
        · simp [tryImmediateFill, hsb, hc, iocCrosses]
  · intro a rest hb hsb hc
    subst hb
    constructor
    · rw [hplace]
      simp [tryImmediateFill, hsb, hc]
    · rw [hplace]
      simp [tryImmediateFill, hsb, hc, simulateFill, updatePosition_fills]
  · intro b rest hb hsb hc
    subst hb
    constructor
    · rw [hplace]
      simp [tryImmediateFill, hsb, hc]
    · rw [hplace]
      simp [tryImmediateFill, hsb, hc, simulateFill, updatePosition_fills]
  · intro hnc
    rw [hplace]
    cases hb : is_buy with
    | true =>
      rcases hsb : snap.asks with _ | ⟨a, rest⟩
      · simp [tryImmediateFill, hsb]
      · have hc : ¬ a.px ≤ limit_px := fun hle => hnc (Or.inl ⟨hb, a, rest, hsb, hle⟩)
        simp [tryImmediateFill, hsb, hc]
    | false =>
      rcases hsb : snap.bids with _ | ⟨b, rest⟩
      · simp [tryImmediateFill, hsb]
      · have hc : ¬ limit_px ≤ b.px := fun hle => hnc (Or.inr ⟨hb, b, rest, hsb, hle⟩)
        simp [tryImmediateFill, hsb, hc]
  · intro tif htif
    refine ⟨?_, ?_⟩
    · simp [placeOrder, htif]
    · simp only [placeOrder, if_neg htif]
      exact alookup_aset_self _ _ _

/-- Empty paper state with next venue id 1. -/
def paperStEmpty : PaperState := ⟨1, [], [], [], 10000⟩

/-- A snapshot with best bid 67490 and best ask 67500. -/
def snap0 : L2Raw := ⟨"BTC", [⟨67490, 1, 1⟩], [⟨67500, 2, 1⟩], 123⟩

/-- Witness for C5: a buy IOC limit 67510 crosses `snap0`'s best ask 67500
and records the fill at 67500. -/
theorem ioc_place_order_semantics_witness :
    (placeOrder paperStEmpty snap0 "BTC" true (1 : ℚ) 67510 "Ioc" 999).1.fills =
      paperStEmpty.fills ++ [⟨"BTC", paperStEmpty.next_oid, Side.bid, 67500, 1, 999, 0, true, 0⟩] :=
  ((ioc_place_order_semantics paperStEmpty snap0 "BTC" true 1 67510 999).2.1
      ⟨67500, 2, 1⟩ [] rfl rfl (by norm_num)).2

-- ## C9: L2 snapshot / raw payload round-trip (src/hyperdspy/models.py)

/-- A single L2 price level (models.py `PriceLevel`). -/
structure PriceLevel where
  price : ℚ
  size : ℚ
  num_orders : Nat
deriving DecidableEq

/-- `PriceLevel.from_sdk`: parse one raw level `{"px", "sz", "n"}`. -/
def PriceLevel.from_sdk (r : RawLevel) : PriceLevel := ⟨r.px, r.sz, r.n⟩

/-- Point-in-time L2 snapshot (models.py `BookSnapshot`). -/
structure BookSnapshot where
  coin : String
  bids : List PriceLevel
  asks : List PriceLevel
  timestamp_ms : Nat
deriving DecidableEq

/-- `BookSnapshot.from_sdk` — the spec calls it `from_raw`: parse the venue
payload `{"coin", "levels": [[bids], [asks]], "time"}`. -/
def BookSnapshot.from_raw (d : L2Raw) : BookSnapshot :=
  ⟨d.coin, d.bids.map PriceLevel.from_sdk, d.asks.map PriceLevel.from_sdk, d.time⟩

/-- Modelled from the spec: `to_raw` is absent from src/ (models.py defines
only the constructor direction); the spec's round-trip line
`BookSnapshot.from_raw(raw).to_raw() == raw` fixes it as the inverse
serializer of one level back to `{"px", "sz", "n"}`. -/
def PriceLevel.to_raw (p : PriceLevel) : RawLevel := ⟨p.price, p.size, p.num_orders⟩

/-- Modelled from the spec: serialize a snapshot back to the venue payload
shape `{"coin", "levels": [[bids], [asks]], "time"}`. -/
def BookSnapshot.to_raw (b : BookSnapshot) : L2Raw :=
  ⟨b.coin, b.bids.map PriceLevel.to_raw, b.asks.map PriceLevel.to_raw, b.timestamp_ms⟩

theorem level_round_trip (l : List RawLevel) :
    l.map (PriceLevel.to_raw ∘ PriceLevel.from_sdk) = l := by
  induction l with
  | nil => rfl
  | cons hd tl ih =>
    rcases hd with ⟨px, sz, n⟩
    simp [PriceLevel.from_sdk, PriceLevel.to_raw, ih]

/-- Claim C9: constructing a snapshot from a raw venue L2 payload and
serializing it back is the identity (field values compared exactly, which is
"up to field ordering" for the Python dicts). -/
theorem book_snapshot_raw_round_trip (raw : L2Raw) :
    (BookSnapshot.from_raw raw).to_raw = raw := by
  rcases raw with ⟨coin, bids, asks, time⟩
  simp [BookSnapshot.from_raw, BookSnapshot.to_raw, List.map_map, Function.comp,
    level_round_trip]

end Hyperdspy
